import Mathlib

/-!
Shallow embedding of `hoomd/dump.py` (the `getar` dump analyzer): the
class tables (`substitutions`, `known_properties`, `known_resolutions`,
`dump_modes`, `bad_mpi_properties`), name expansion (`_expandNames` /
`_getStatic`), and the constructor `getar.__init__` as a function from
its inputs (plus the ambient context: rank count, file existence,
current time step) to the sequence of calls issued to the external
`GetarDumpWriter` together with the error outcome, if any.
-/

set_option autoImplicit false

namespace HoomdDump

/-- Compression levels of `_hoomd.GetarCompression`. -/
inductive GetarCompression where
  | noCompress
  | fastCompress
  | mediumCompress
  | slowCompress
  deriving DecidableEq, Repr

/-- Dump modes of `_hoomd.GetarDumpMode`. -/
inductive GetarDumpMode where
  | overwrite
  | append
  | oneShot
  deriving DecidableEq, Repr

/-- Behaviors of `_hoomd.GetarBehavior` used by `setPeriod`. -/
inductive GetarBehavior where
  | constant
  | discrete
  deriving DecidableEq, Repr

/-- Resolutions of `_hoomd.GetarResolution`. -/
inductive GetarResolution where
  | text
  | individual
  | uniform
  deriving DecidableEq, Repr

/-- Property enums of `_hoomd.GetarProperty` (the capability ids). -/
inductive GetarProperty where
  | angleNames | angleTags | angleTypes
  | angularMomentum | body
  | bondNames | bondTags | bondTypes
  | box | charge | diameter
  | dihedralNames | dihedralTags | dihedralTypes
  | dimensions | image
  | improperNames | improperTags | improperTypes
  | mass | momentInertia | orientation | position
  | potentialEnergy | type | typeNames | velocity | virial
  deriving DecidableEq, Repr

/-- The namedtuple `getar.DumpProp` (name, highPrecision, compression);
defaults in `__new__` are `highPrecision=False`, `compression=FastCompress`. -/
structure DumpProp where
  name : String
  highPrecision : Bool
  compression : GetarCompression
  deriving DecidableEq, Repr

/-- A property specification element as accepted by the Python API:
either a plain string or a `DumpProp`. -/
inductive PropSpec where
  | str (s : String)
  | prop (p : DumpProp)
  deriving DecidableEq, Repr

/-- The `getar._getStatic` helper: a plain string becomes a `DumpProp`
with the defaults (`highPrecision=False`, `FastCompress`); a `DumpProp`
passes through. -/
def getStatic : PropSpec → DumpProp
  | .str s => ⟨s, false, .fastCompress⟩
  | .prop p => p

/-- The `getar.substitutions` table mapping composite names to child names. -/
def substitutions (s : String) : Option (List String) :=
  if s = "all" then
    some ["particle_all", "angle_all", "bond_all",
          "dihedral_all", "improper_all", "global_all"]
  else if s = "particle_all" then
    some ["angular_momentum", "body", "charge", "diameter", "image", "mass",
          "moment_inertia", "orientation", "position", "type", "type_names",
          "velocity"]
  else if s = "angle_all" then some ["angle_type_names", "angle_tag", "angle_type"]
  else if s = "bond_all" then some ["bond_type_names", "bond_tag", "bond_type"]
  else if s = "dihedral_all" then
    some ["dihedral_type_names", "dihedral_tag", "dihedral_type"]
  else if s = "improper_all" then
    some ["improper_type_names", "improper_tag", "improper_type"]
  else if s = "global_all" then some ["box", "dimensions"]
  else if s = "viz_dynamic" then some ["position", "box"]
  else if s = "viz_static" then some ["type", "type_names", "dimensions"]
  else if s = "viz_all" then some ["viz_static", "viz_dynamic"]
  else if s = "viz_aniso_dynamic" then some ["viz_dynamic", "orientation"]
  else if s = "viz_aniso_all" then some ["viz_static", "viz_aniso_dynamic"]
  else none

/-- The `getar.known_properties` table (name to capability enum). -/
def known_properties : String → Option GetarProperty
  | "angle_type_names" => some .angleNames
  | "angle_tag" => some .angleTags
  | "angle_type" => some .angleTypes
  | "angular_momentum" => some .angularMomentum
  | "body" => some .body
  | "bond_type_names" => some .bondNames
  | "bond_tag" => some .bondTags
  | "bond_type" => some .bondTypes
  | "box" => some .box
  | "charge" => some .charge
  | "diameter" => some .diameter
  | "dihedral_type_names" => some .dihedralNames
  | "dihedral_tag" => some .dihedralTags
  | "dihedral_type" => some .dihedralTypes
  | "dimensions" => some .dimensions
  | "image" => some .image
  | "improper_type_names" => some .improperNames
  | "improper_tag" => some .improperTags
  | "improper_type" => some .improperTypes
  | "mass" => some .mass
  | "moment_inertia" => some .momentInertia
  | "orientation" => some .orientation
  | "position" => some .position
  | "potential_energy" => some .potentialEnergy
  | "type" => some .type
  | "type_names" => some .typeNames
  | "velocity" => some .velocity
  | "virial" => some .virial
  | _ => none

/-- The `getar.known_resolutions` table (name to resolution enum). -/
def known_resolutions : String → Option GetarResolution
  | "angle_type_names" => some .text
  | "angle_tag" => some .individual
  | "angle_type" => some .individual
  | "angular_momentum" => some .individual
  | "body" => some .individual
  | "bond_type_names" => some .text
  | "bond_tag" => some .individual
  | "bond_type" => some .individual
  | "box" => some .uniform
  | "charge" => some .individual
  | "diameter" => some .individual
  | "dihedral_type_names" => some .text
  | "dihedral_tag" => some .individual
  | "dihedral_type" => some .individual
  | "dimensions" => some .uniform
  | "image" => some .individual
  | "improper_type_names" => some .text
  | "improper_tag" => some .individual
  | "improper_type" => some .individual
  | "mass" => some .individual
  | "moment_inertia" => some .individual
  | "orientation" => some .individual
  | "position" => some .individual
  | "potential_energy" => some .individual
  | "type" => some .individual
  | "type_names" => some .text
  | "velocity" => some .individual
  | "virial" => some .individual
  | _ => none

/-- The `getar.bad_mpi_properties` list. -/
def bad_mpi_properties : List String := ["potential_energy", "virial"]

/-- The `getar.dump_modes` table (mode token to dump mode enum). -/
def dump_modes : String → Option GetarDumpMode
  | "w" => some .overwrite
  | "a" => some .append
  | "1" => some .oneShot
  | _ => none

/-- Depth of a name in the (acyclic) substitution table: 0 for names
that are not substitution keys, and otherwise one more than the largest
depth among the children. Used as the termination measure of
`expandNames`. -/
def substRank (s : String) : Nat :=
  if s = "all" then 2
  else if s = "viz_all" then 2
  else if s = "viz_aniso_dynamic" then 2
  else if s = "viz_aniso_all" then 3
  else if (substitutions s).isSome then 1
  else 0

/-- Measure for the recursion in `expandNames`: each property weighs
exponentially in the rank of its name, so that the (at most twelve)
children of a composite weigh strictly less than the composite itself. -/
def specWeight (v : PropSpec) : Nat := 13 ^ substRank (getStatic v).name

/-- Sum of the children's weights is below the parent's weight, for
every entry of the substitution table. -/
theorem specWeight_children_lt {s : String} {cs : List String}
    (h : substitutions s = some cs) (hp : Bool) (cp : GetarCompression) :
    ((cs.map fun n => PropSpec.prop ⟨n, hp, cp⟩).map specWeight).sum
      < 13 ^ substRank s := by
  have hmap : ((cs.map fun n => PropSpec.prop ⟨n, hp, cp⟩).map specWeight)
      = cs.map fun n => 13 ^ substRank n := by
    rw [List.map_map]; rfl
  rw [hmap]
  unfold substitutions at h
  by_cases h1 : s = "all"
  · rw [if_pos h1] at h; injection h with h; subst h; subst h1; decide
  rw [if_neg h1] at h
  by_cases h2 : s = "particle_all"
  · rw [if_pos h2] at h; injection h with h; subst h; subst h2; decide
  rw [if_neg h2] at h
  by_cases h3 : s = "angle_all"
  · rw [if_pos h3] at h; injection h with h; subst h; subst h3; decide
  rw [if_neg h3] at h
  by_cases h4 : s = "bond_all"
  · rw [if_pos h4] at h; injection h with h; subst h; subst h4; decide
  rw [if_neg h4] at h
  by_cases h5 : s = "dihedral_all"
  · rw [if_pos h5] at h; injection h with h; subst h; subst h5; decide
  rw [if_neg h5] at h
  by_cases h6 : s = "improper_all"
  · rw [if_pos h6] at h; injection h with h; subst h; subst h6; decide
  rw [if_neg h6] at h
  by_cases h7 : s = "global_all"
  · rw [if_pos h7] at h; injection h with h; subst h; subst h7; decide
  rw [if_neg h7] at h
  by_cases h8 : s = "viz_dynamic"
  · rw [if_pos h8] at h; injection h with h; subst h; subst h8; decide
  rw [if_neg h8] at h
  by_cases h9 : s = "viz_static"
  · rw [if_pos h9] at h; injection h with h; subst h; subst h9; decide
  rw [if_neg h9] at h
  by_cases h10 : s = "viz_all"
  · rw [if_pos h10] at h; injection h with h; subst h; subst h10; decide
  rw [if_neg h10] at h
  by_cases h11 : s = "viz_aniso_dynamic"
  · rw [if_pos h11] at h; injection h with h; subst h; subst h11; decide
  rw [if_neg h11] at h
  by_cases h12 : s = "viz_aniso_all"
  · rw [if_pos h12] at h; injection h with h; subst h; subst h12; decide
  rw [if_neg h12] at h
  exact Option.noConfusion h

/-- The recursive expansion `getar._expandNames`: each element is first
normalized by `_getStatic`; a name that is a substitution key is
replaced by the recursive expansion of its children, each child
inheriting the parent's precision and compression; other elements pass
through. The Python loop accumulates with `result.extend`, which is the
list append below. -/
def expandNames : List PropSpec → List DumpProp
  | [] => []
  | v :: rest =>
    match hsub : substitutions (getStatic v).name with
    | some names =>
        expandNames (names.map fun n =>
          PropSpec.prop ⟨n, (getStatic v).highPrecision, (getStatic v).compression⟩)
          ++ expandNames rest
    | none => getStatic v :: expandNames rest
  termination_by l => (l.map specWeight).sum
  decreasing_by
  · simp only [List.map_cons, List.sum_cons]
    exact Nat.lt_of_lt_of_le (specWeight_children_lt hsub _ _)
      (Nat.le_add_right_of_le (Nat.le_of_eq (by rfl)))
  all_goals
    simp only [List.map_cons, List.sum_cons]
  all_goals
    have hposw : 0 < specWeight v := Nat.pos_pow_of_pos _ (by norm_num)
  all_goals
    omega

/-- Names produced by `expandNames` are never substitution keys: the
expansion recurses until only non-key names remain. -/
theorem expandNames_no_subst {l : List PropSpec} {p : DumpProp}
    (hp : p ∈ expandNames l) : substitutions p.name = none := by
  induction l using expandNames.induct with
  | case1 => simp [expandNames] at hp
  | case2 v rest names hsub ih1 ih2 =>
      rw [expandNames, hsub] at hp
      rcases List.mem_append.mp hp with hmem | hmem
      · exact ih1 hmem
      · exact ih2 hmem
  | case3 v rest hsub ih =>
      rw [expandNames, hsub] at hp
      rcases List.mem_cons.mp hp with rfl | hmem
      · exact hsub
      · exact ih hmem

/-- Expanding a list of properties none of whose names are substitution
keys returns the list unchanged. -/
theorem expandNames_fixed {l : List DumpProp}
    (h : ∀ p ∈ l, substitutions p.name = none) :
    expandNames (l.map PropSpec.prop) = l := by
  induction l with
  | nil => simp [expandNames]
  | cons p rest ih =>
      have hp : substitutions p.name = none := h p (List.mem_cons_self p rest)
      rw [List.map_cons, expandNames]
      split
      · rename_i names hsub
        rw [show getStatic (PropSpec.prop p) = p from rfl, hp] at hsub
        exact Option.noConfusion hsub
      · exact congrArg (p :: ·) (ih fun q hq => h q (List.mem_cons_of_mem _ hq))

/-- Calls issued by the dump layer to its external collaborators: the
`GetarDumpWriter` construction (which opens the archive), each
`setPeriod` registration, and `close`. -/
inductive Event where
  | openArchive (filename : String) (mode : GetarDumpMode) (startStep : Int)
  | setPeriod (prop : GetarProperty) (res : GetarResolution)
      (behavior : GetarBehavior) (highPrecision : Bool)
      (compression : GetarCompression) (period : Int)
  | close
  deriving DecidableEq, Repr

/-- Errors `getar.__init__` can raise. `unknownStaticProperty` and
`unknownDynamicProperty` are the two `RuntimeError('Unknown ... property
in dump.getar: ...')` raises; `unknownMode` is the
`RuntimeError('Unknown open mode: ...')`; `rankUnsafe` is the
`RuntimeError("dump.getar: Can't dump property ... with MPI!")`;
`nameError` is the Python `NameError` raised when the static validation
loop reads the loop variable `prop` of the earlier dynamic-expansion
loop before it was ever bound (dump.py line 278 tests `prop.name`, not
`val.name`); `keyError` is the Python `KeyError` from indexing
`known_properties`/`known_resolutions` with an unvalidated name during
registration. -/
inductive DumpError where
  | unknownStaticProperty (val : DumpProp)
  | unknownDynamicProperty (val : DumpProp)
  | unknownMode (mode : String)
  | rankUnsafe (name : String)
  | nameError
  | keyError (name : String)
  deriving DecidableEq, Repr

/-- Period values accepted per dynamic property: a single number or an
iterable of numbers (dump.py handles the single case through the
`except TypeError` branch). -/
inductive PeriodVal where
  | one (n : Int)
  | many (l : List Int)
  deriving DecidableEq, Repr

/-- Elements of `set(self._static)`: deduplication by value. Python's
set iteration order is unspecified; this model fixes it to first
occurrence, which is irrelevant to the properties proved here (only the
set of emitted registrations and the existence of an error depend on it). -/
def pyDedup (seen : List DumpProp) : List DumpProp → List DumpProp
  | [] => []
  | p :: rest =>
      if p ∈ seen then pyDedup seen rest else p :: pyDedup (p :: seen) rest

/-- Deduplicate `self._static` as `set(self._static)` does. -/
def pySet (l : List DumpProp) : List DumpProp := pyDedup [] l

/-- Python dict assignment `d[k] = v`: replaces the value of an
existing key in place, else appends the pair (insertion order is
preserved, as in Python 3.7+). -/
def dictSet (d : List (DumpProp × PeriodVal)) (k : DumpProp) (v : PeriodVal) :
    List (DumpProp × PeriodVal) :=
  if d.any (fun kv => kv.1 = k) then
    d.map (fun kv => if kv.1 = k then (k, v) else kv)
  else d ++ [(k, v)]

/-- Inner loop of the `self._dynamic` construction: assign the period
value to each property in the expansion of one key. -/
def dynAssign (pv : PeriodVal) : List (DumpProp × PeriodVal) → List DumpProp →
    List (DumpProp × PeriodVal)
  | d, [] => d
  | d, p :: ps => dynAssign pv (dictSet d p pv) ps

/-- Outer loop of the `self._dynamic` construction over the dynamic
mapping's entries in insertion order. -/
def buildDynAux : List (DumpProp × PeriodVal) → List (PropSpec × PeriodVal) →
    List (DumpProp × PeriodVal)
  | d, [] => d
  | d, (k, pv) :: rest => buildDynAux (dynAssign pv d (expandNames [k])) rest

/-- The loop building `self._dynamic` (dump.py lines 268-271): for each
dynamic key, each property of its expansion is assigned the key's
period value (`self._dynamic[prop] = period`, so a later request
resolving to the same property replaces the earlier period value). -/
def buildDyn (dynamic : List (PropSpec × PeriodVal)) :
    List (DumpProp × PeriodVal) :=
  buildDynAux [] dynamic

/-- Value of the loop variable `prop` after the dynamic-expansion loop:
the last property of the expansion of the last key, or unbound (`none`)
when the dynamic mapping is empty. -/
def lastDynProp (dynamic : List (PropSpec × PeriodVal)) : Option DumpProp :=
  (dynamic.flatMap fun kp => expandNames [kp.1]).getLast?

/-- The static validation loop (dump.py lines 277-279). The loop tests
`prop.name` — the stale variable from the dynamic-expansion loop — so
with a nonempty static list it raises `NameError` when `prop` was never
bound, raises the unknown-static error naming the first static element
when the stale `prop` has an unknown name, and otherwise passes without
looking at any static name. -/
def staticCheck (statics : List DumpProp) (lastProp : Option DumpProp) :
    Option DumpError :=
  match statics with
  | [] => none
  | v :: _ =>
    match lastProp with
    | none => some .nameError
    | some p =>
        if (known_properties p.name).isSome then none
        else some (.unknownStaticProperty v)

/-- The dynamic validation loop (dump.py lines 281-283): the first key
of `self._dynamic` with a name outside `known_properties` is an error. -/
def dynCheck : List (DumpProp × PeriodVal) → Option DumpError
  | [] => none
  | (p, _) :: rest =>
      if (known_properties p.name).isSome then dynCheck rest
      else some (.unknownDynamicProperty p)

/-- Static registration loop (dump.py lines 297-306) over
`set(self._static)`: per property, the rank-safety gate, then a
`setPeriod` call with `Constant` behavior and period 0. Returns the
events issued before any failure, and the failure. -/
def registerStatics (num_ranks : Nat) : List DumpProp →
    List Event × Option DumpError
  | [] => ([], none)
  | p :: rest =>
    if 1 < num_ranks ∧ p.name ∈ bad_mpi_properties then
      ([], some (.rankUnsafe p.name))
    else
      match known_properties p.name, known_resolutions p.name with
      | some cap, some res =>
          let r := registerStatics num_ranks rest
          (.setPeriod cap res .constant p.highPrecision p.compression 0 :: r.1,
           r.2)
      | _, _ => ([], some (.keyError p.name))

/-- Periods denoted by a period value: the iterable's elements, or the
single value (`int(...)` is the identity on integers). -/
def periodList : PeriodVal → List Int
  | .one n => [n]
  | .many l => l

/-- Dynamic registration loop (dump.py lines 308-329): per property of
`self._dynamic`, the rank-safety gate, then one `setPeriod` call with
`Discrete` behavior per period value (a single `setPeriod` in the
`except TypeError` branch when the value is a single number). -/
def registerDynamics (num_ranks : Nat) : List (DumpProp × PeriodVal) →
    List Event × Option DumpError
  | [] => ([], none)
  | (p, pv) :: rest =>
    if 1 < num_ranks ∧ p.name ∈ bad_mpi_properties then
      ([], some (.rankUnsafe p.name))
    else
      match known_properties p.name, known_resolutions p.name with
      | some cap, some res =>
          let r := registerDynamics num_ranks rest
          ((periodList pv).map
            (fun per => .setPeriod cap res .discrete p.highPrecision
              p.compression per) ++ r.1,
           r.2)
      | _, _ => ([], some (.keyError p.name))

/-- Outcome of a `getar.__init__` run: the calls issued to the external
writer in order, and the raised error, if any. -/
structure InitResult where
  events : List Event
  error : Option DumpError
  deriving DecidableEq, Repr

/-- The constructor `getar.__init__` as a function of its arguments and
of the ambient context it reads: the participant rank count
(`hoomd.context.current.device.comm.num_ranks`), whether a file exists
at the target path (`os.path.isfile(filename)`), and the current time
step. Analyzer bookkeeping (`_register`) issues no writer calls and is
omitted. The steps, in source order: expansion of the static list and
the dynamic mapping; the (defective) static validation loop; the
dynamic validation loop; mode lookup with the append-to-overwrite
fallback; opening the `GetarDumpWriter`; static registration over the
deduplicated static set; dynamic registration. -/
def getarInit (filename : String) (mode : String) (static : List PropSpec)
    (dynamic : List (PropSpec × PeriodVal)) (num_ranks : Nat)
    (fileExists : Bool) (startStep : Int) : InitResult :=
  let statics := expandNames static
  let dyn := buildDyn dynamic
  match staticCheck statics (lastDynProp dynamic) with
  | some e => ⟨[], some e⟩
  | none =>
  match dynCheck dyn with
  | some e => ⟨[], some e⟩
  | none =>
  match dump_modes mode with
  | none => ⟨[], some (.unknownMode mode)⟩
  | some m =>
    let dumpMode := if m = .append ∧ fileExists = false then .overwrite else m
    let ev0 := Event.openArchive filename dumpMode startStep
    match registerStatics num_ranks (pySet statics) with
    | (evs, some e) => ⟨ev0 :: evs, some e⟩
    | (evs, none) =>
        let rd := registerDynamics num_ranks dyn
        ⟨ev0 :: (evs ++ rd.1), rd.2⟩

/-- The classmethod `getar.simple`: wraps each dynamic name in a
`DumpProp` carrying the `high_precision` flag (compression left at the
`FastCompress` default) with the single shared period, and passes the
static list through unchanged. -/
def simple (filename : String) (period : PeriodVal) (mode : String)
    (static : List PropSpec) (dynamic : List String) (high_precision : Bool)
    (num_ranks : Nat) (fileExists : Bool) (startStep : Int) : InitResult :=
  getarInit filename mode static
    (dynamic.map fun name =>
      (PropSpec.prop ⟨name, high_precision, .fastCompress⟩, period))
    num_ranks fileExists startStep

/-- The method `getar.close`: a single `close` call on the writer. -/
def getarCloseEvents : List Event := [Event.close]

/-- Fuel-indexed single-property expansion. With fuel exceeding the
depth of the substitution table it computes exactly the expansion of
one property; defined by structural recursion on the fuel so that the
kernel can evaluate it (`expandNames` itself is well-founded recursive
and does not reduce definitionally). -/
def expandF : Nat → PropSpec → List DumpProp
  | 0, v => [getStatic v]
  | fuel + 1, v =>
    match substitutions (getStatic v).name with
    | some names =>
        names.flatMap fun n =>
          expandF fuel (PropSpec.prop
            ⟨n, (getStatic v).highPrecision, (getStatic v).compression⟩)
    | none => [getStatic v]

/-- Ranks in the substitution table never exceed 3. -/
theorem substRank_le_three (s : String) : substRank s ≤ 3 := by
  unfold substRank
  split_ifs <;> omega

/-- Substitution keys have positive rank. -/
theorem substRank_pos {s : String} (h : (substitutions s).isSome = true) :
    1 ≤ substRank s := by
  unfold substRank
  split_ifs <;> omega

/-- Every child in the substitution table has strictly smaller rank
than its parent (the table is acyclic). -/
theorem substRank_child_lt {s : String} {cs : List String}
    (h : substitutions s = some cs) {c : String} (hc : c ∈ cs) :
    substRank c < substRank s := by
  unfold substitutions at h
  by_cases h1 : s = "all"
  · rw [if_pos h1] at h; injection h with h; subst h; subst h1
    fin_cases hc <;> decide
  rw [if_neg h1] at h
  by_cases h2 : s = "particle_all"
  · rw [if_pos h2] at h; injection h with h; subst h; subst h2
    fin_cases hc <;> decide
  rw [if_neg h2] at h
  by_cases h3 : s = "angle_all"
  · rw [if_pos h3] at h; injection h with h; subst h; subst h3
    fin_cases hc <;> decide
  rw [if_neg h3] at h
  by_cases h4 : s = "bond_all"
  · rw [if_pos h4] at h; injection h with h; subst h; subst h4
    fin_cases hc <;> decide
  rw [if_neg h4] at h
  by_cases h5 : s = "dihedral_all"
  · rw [if_pos h5] at h; injection h with h; subst h; subst h5
    fin_cases hc <;> decide
  rw [if_neg h5] at h
  by_cases h6 : s = "improper_all"
  · rw [if_pos h6] at h; injection h with h; subst h; subst h6
    fin_cases hc <;> decide
  rw [if_neg h6] at h
  by_cases h7 : s = "global_all"
  · rw [if_pos h7] at h; injection h with h; subst h; subst h7
    fin_cases hc <;> decide
  rw [if_neg h7] at h
  by_cases h8 : s = "viz_dynamic"
  · rw [if_pos h8] at h; injection h with h; subst h; subst h8
    fin_cases hc <;> decide
  rw [if_neg h8] at h
  by_cases h9 : s = "viz_static"
  · rw [if_pos h9] at h; injection h with h; subst h; subst h9
    fin_cases hc <;> decide
  rw [if_neg h9] at h
  by_cases h10 : s = "viz_all"
  · rw [if_pos h10] at h; injection h with h; subst h; subst h10
    fin_cases hc <;> decide
  rw [if_neg h10] at h
  by_cases h11 : s = "viz_aniso_dynamic"
  · rw [if_pos h11] at h; injection h with h; subst h; subst h11
    fin_cases hc <;> decide
  rw [if_neg h11] at h
  by_cases h12 : s = "viz_aniso_all"
  · rw [if_pos h12] at h; injection h with h; subst h; subst h12
    fin_cases hc <;> decide
  rw [if_neg h12] at h
  exact Option.noConfusion h

/-- Congruence for `flatMap` over pointwise-equal functions. -/
theorem flatMap_congr_mem {α β : Type} {l : List α} {f g : α → List β}
    (h : ∀ a ∈ l, f a = g a) : l.flatMap f = l.flatMap g := by
  induction l with
  | nil => rfl
  | cons a rest ih =>
      simp only [List.flatMap_cons]
      rw [h a (List.mem_cons_self a rest),
          ih fun x hx => h x (List.mem_cons_of_mem _ hx)]

/-- `flatMap` after a `map` composes the functions. -/
theorem map_flatMap_comp {α β γ : Type} (l : List α) (f : α → β)
    (g : β → List γ) : (l.map f).flatMap g = l.flatMap fun x => g (f x) := by
  induction l with
  | nil => rfl
  | cons a rest ih => simp only [List.map_cons, List.flatMap_cons, ih]

/-- Above the rank of the property's name, the fuel does not matter. -/
theorem expandF_stable : ∀ (f₁ : Nat) {f₂ : Nat} (v : PropSpec),
    substRank (getStatic v).name < f₁ → substRank (getStatic v).name < f₂ →
    expandF f₁ v = expandF f₂ v := by
  intro f₁
  induction f₁ with
  | zero => intro f₂ v h1 _; omega
  | succ a ih =>
      intro f₂ v h1 h2
      match f₂ with
      | 0 => omega
      | b + 1 =>
        rw [expandF, expandF]
        cases hsub : substitutions (getStatic v).name with
        | none => rfl
        | some names =>
            refine flatMap_congr_mem fun n hn => ?_
            have hchild : substRank n < substRank (getStatic v).name :=
              substRank_child_lt hsub hn
            refine ih _ ?_ ?_ <;> (show substRank n < _) <;> omega

/-- Unfolding equation of `expandNames` for a substitutable head. -/
theorem expandNames_cons_some {v : PropSpec} {rest : List PropSpec}
    {names : List String} (hsub : substitutions (getStatic v).name = some names) :
    expandNames (v :: rest) =
      expandNames (names.map fun n => PropSpec.prop
        ⟨n, (getStatic v).highPrecision, (getStatic v).compression⟩)
      ++ expandNames rest := by
  rw [expandNames.eq_2]
  split
  · rename_i ns hs
    rw [hsub] at hs
    injection hs with hs
    subst hs
    rfl
  · rename_i hs
    rw [hsub] at hs
    exact Option.noConfusion hs

/-- Unfolding equation of `expandNames` for a non-substitutable head. -/
theorem expandNames_cons_none {v : PropSpec} {rest : List PropSpec}
    (hsub : substitutions (getStatic v).name = none) :
    expandNames (v :: rest) = getStatic v :: expandNames rest := by
  rw [expandNames.eq_2]
  split
  · rename_i ns hs
    rw [hsub] at hs
    exact Option.noConfusion hs
  · rfl

/-- The well-founded `expandNames` agrees with the fuel-4 expansion
(4 exceeds every rank in the table). -/
theorem expandNames_eq_flatMap (l : List PropSpec) :
    expandNames l = l.flatMap (expandF 4) := by
  induction l using expandNames.induct with
  | case1 => rw [expandNames]; rfl
  | case2 v rest names hsub ih1 ih2 =>
      rw [expandNames_cons_some hsub, List.flatMap_cons, ih1, ih2]
      have hv : expandF 4 v = names.flatMap fun n =>
          expandF 3 (PropSpec.prop
            ⟨n, (getStatic v).highPrecision, (getStatic v).compression⟩) := by
        show expandF (3 + 1) v = _
        rw [expandF, hsub]
      rw [hv, map_flatMap_comp]
      refine congrArg (· ++ rest.flatMap (expandF 4)) ?_
      refine flatMap_congr_mem fun n hn => ?_
      have hchild : substRank n < substRank (getStatic v).name :=
        substRank_child_lt hsub hn
      have hle : substRank (getStatic v).name ≤ 3 := substRank_le_three _
      refine expandF_stable 4 _ ?_ ?_ <;> (show substRank n < _) <;> omega
  | case3 v rest hsub ih =>
      rw [expandNames_cons_none hsub, List.flatMap_cons, ih]
      have hv : expandF 4 v = [getStatic v] := by
        show expandF (3 + 1) v = _
        rw [expandF, hsub]
      rw [hv, List.singleton_append]

/-- Kernel-evaluable form of `expandNames`, used only through
`expandNames_eq_F` to compute the model on concrete inputs. -/
def expandNamesF (l : List PropSpec) : List DumpProp := l.flatMap (expandF 4)

/-- Pointwise equality of `expandNames` with its evaluable form. -/
theorem expandNames_eq_F : expandNames = expandNamesF :=
  funext fun l => expandNames_eq_flatMap l

/-- Evaluable form of `buildDynAux`. -/
def buildDynAuxF : List (DumpProp × PeriodVal) → List (PropSpec × PeriodVal) →
    List (DumpProp × PeriodVal)
  | d, [] => d
  | d, (k, pv) :: rest => buildDynAuxF (dynAssign pv d (expandNamesF [k])) rest

/-- Evaluable form of `buildDyn`. -/
def buildDynF (dynamic : List (PropSpec × PeriodVal)) :
    List (DumpProp × PeriodVal) :=
  buildDynAuxF [] dynamic

/-- Pointwise equality of `buildDynAux` with its evaluable form. -/
theorem buildDynAux_eq_F :
    ∀ (rest : List (PropSpec × PeriodVal)) (d : List (DumpProp × PeriodVal)),
    buildDynAux d rest = buildDynAuxF d rest := by
  intro rest
  induction rest with
  | nil => intro d; rfl
  | cons kp rest ih =>
      intro d
      obtain ⟨k, pv⟩ := kp
      rw [buildDynAux, buildDynAuxF, expandNames_eq_F]
      exact ih _

/-- Pointwise equality of `buildDyn` with its evaluable form. -/
theorem buildDyn_eq_F : buildDyn = buildDynF := by
  funext dynamic
  unfold buildDyn buildDynF
  exact buildDynAux_eq_F dynamic []

/-- Evaluable form of `lastDynProp`. -/
def lastDynPropF (dynamic : List (PropSpec × PeriodVal)) : Option DumpProp :=
  (dynamic.flatMap fun kp => expandNamesF [kp.1]).getLast?

/-- Pointwise equality of `lastDynProp` with its evaluable form. -/
theorem lastDynProp_eq_F : lastDynProp = lastDynPropF := by
  unfold lastDynProp lastDynPropF
  rw [expandNames_eq_F]

/-- Evaluable form of `getarInit`. -/
def getarInitF (filename : String) (mode : String) (static : List PropSpec)
    (dynamic : List (PropSpec × PeriodVal)) (num_ranks : Nat)
    (fileExists : Bool) (startStep : Int) : InitResult :=
  let statics := expandNamesF static
  let dyn := buildDynF dynamic
  match staticCheck statics (lastDynPropF dynamic) with
  | some e => ⟨[], some e⟩
  | none =>
  match dynCheck dyn with
  | some e => ⟨[], some e⟩
  | none =>
  match dump_modes mode with
  | none => ⟨[], some (.unknownMode mode)⟩
  | some m =>
    let dumpMode := if m = .append ∧ fileExists = false then .overwrite else m
    let ev0 := Event.openArchive filename dumpMode startStep
    match registerStatics num_ranks (pySet statics) with
    | (evs, some e) => ⟨ev0 :: evs, some e⟩
    | (evs, none) =>
        let rd := registerDynamics num_ranks dyn
        ⟨ev0 :: (evs ++ rd.1), rd.2⟩

/-- Pointwise equality of `getarInit` with its evaluable form. -/
theorem getarInit_eq_F : getarInit = getarInitF := by
  unfold getarInit getarInitF
  rw [expandNames_eq_F, buildDyn_eq_F, lastDynProp_eq_F]

/-- Membership in the dedup helper: an element kept iff present in the
remainder and not already seen. -/
theorem pyDedup_mem {p : DumpProp} :
    ∀ {l : List DumpProp} {seen : List DumpProp},
    p ∈ pyDedup seen l ↔ p ∈ l ∧ p ∉ seen := by
  intro l
  induction l with
  | nil => intro seen; simp [pyDedup]
  | cons q rest ih =>
      intro seen
      rw [pyDedup]
      split
      · rename_i hq
        rw [ih]
        constructor
        · rintro ⟨h1, h2⟩
          exact ⟨List.mem_cons_of_mem _ h1, h2⟩
        · rintro ⟨h1, h2⟩
          rcases List.mem_cons.mp h1 with rfl | h1
          · exact absurd hq h2
          · exact ⟨h1, h2⟩
      · rename_i hq
        simp only [List.mem_cons, ih, List.mem_cons]
        constructor
        · rintro (rfl | ⟨h1, h2⟩)
          · exact ⟨Or.inl rfl, fun hs => hq hs⟩
          · exact ⟨Or.inr h1, fun hs => h2 (Or.inr hs)⟩
        · rintro ⟨rfl | h1, h2⟩
          · exact Or.inl rfl
          · by_cases hpq : p = q
            · exact Or.inl hpq
            · exact Or.inr ⟨h1, fun hs => by
                rcases hs with hs | hs
                · exact hpq hs
                · exact h2 hs⟩

/-- Membership in `set(self._static)` is membership in `self._static`. -/
theorem pySet_mem {p : DumpProp} {l : List DumpProp} :
    p ∈ pySet l ↔ p ∈ l := by
  rw [pySet, pyDedup_mem]
  simp

/-- Every event issued by the static registration loop is a
constant-behavior `setPeriod` at period 0 carrying the precision and
compression of one of the given properties. -/
theorem registerStatics_mem_shape {r : Nat} :
    ∀ {l : List DumpProp} {e : Event}, e ∈ (registerStatics r l).1 →
    ∃ p ∈ l, ∃ cap rz, e =
      Event.setPeriod cap rz .constant p.highPrecision p.compression 0 := by
  intro l
  induction l with
  | nil => intro e he; simp [registerStatics] at he
  | cons p rest ih =>
      intro e he
      rw [registerStatics] at he
      split at he
      · simp at he
      · split at he
        · rename_i cap rz hcap hrz
          rcases List.mem_cons.mp he with rfl | he
          · exact ⟨p, List.mem_cons_self p rest, cap, rz, rfl⟩
          · obtain ⟨q, hq, cap', rz', rfl⟩ := ih he
            exact ⟨q, List.mem_cons_of_mem _ hq, cap', rz', rfl⟩
        · simp at he

/-- Every event issued by the dynamic registration loop is a
discrete-behavior `setPeriod` carrying the precision and compression of
one of the given properties. -/
theorem registerDynamics_mem_shape {r : Nat} :
    ∀ {l : List (DumpProp × PeriodVal)} {e : Event},
    e ∈ (registerDynamics r l).1 →
    ∃ kv ∈ l, ∃ cap rz per, e =
      Event.setPeriod cap rz .discrete kv.1.highPrecision kv.1.compression per := by
  intro l
  induction l with
  | nil => intro e he; simp [registerDynamics] at he
  | cons kv rest ih =>
      intro e he
      obtain ⟨p, pv⟩ := kv
      rw [registerDynamics] at he
      split at he
      · simp at he
      · split at he
        · rename_i cap rz hcap hrz
          rcases List.mem_append.mp he with he | he
          · obtain ⟨per, _, rfl⟩ := List.mem_map.mp he
            exact ⟨(p, pv), List.mem_cons_self _ rest, cap, rz, per, rfl⟩
          · obtain ⟨kv', hkv', cap', rz', per', rfl⟩ := ih he
            exact ⟨kv', List.mem_cons_of_mem _ hkv', cap', rz', per', rfl⟩
        · simp at he

/-- With every name in both catalogs, the static registration loop
fails exactly when the rank gate trips for some property. -/
theorem registerStatics_error_none {r : Nat} :
    ∀ {l : List DumpProp},
    (∀ p ∈ l, (known_properties p.name).isSome = true ∧
      (known_resolutions p.name).isSome = true) →
    ((registerStatics r l).2 = none ↔
      ¬(1 < r ∧ ∃ p ∈ l, p.name ∈ bad_mpi_properties)) := by
  intro l
  induction l with
  | nil => intro _; simp [registerStatics]
  | cons p rest ih =>
      intro hk
      rw [registerStatics]
      split
      · rename_i hcond
        simp only [reduceCtorEq, false_iff, not_not]
        exact ⟨hcond.1, p, List.mem_cons_self p rest, hcond.2⟩
      · rename_i hcond
        obtain ⟨cap, hcap⟩ := Option.isSome_iff_exists.mp
          (hk p (List.mem_cons_self p rest)).1
        obtain ⟨rz, hrz⟩ := Option.isSome_iff_exists.mp
          (hk p (List.mem_cons_self p rest)).2
        rw [hcap, hrz]
        have ihr := ih fun q hq => hk q (List.mem_cons_of_mem _ hq)
        simp only [ihr]
        constructor
        · intro hno ⟨hr, q, hq, hbad⟩
          rcases List.mem_cons.mp hq with rfl | hq
          · exact hcond ⟨hr, hbad⟩
          · exact hno ⟨hr, q, hq, hbad⟩
        · intro hno ⟨hr, q, hq, hbad⟩
          exact hno ⟨hr, q, List.mem_cons_of_mem _ hq, hbad⟩

/-- With every name in both catalogs, any error of the static
registration loop is a rank-unsafety error. -/
theorem registerStatics_error_rank {r : Nat} :
    ∀ {l : List DumpProp},
    (∀ p ∈ l, (known_properties p.name).isSome = true ∧
      (known_resolutions p.name).isSome = true) →
    ∀ {e : DumpError}, (registerStatics r l).2 = some e →
    ∃ n, e = .rankUnsafe n := by
  intro l
  induction l with
  | nil => intro _ e he; simp [registerStatics] at he
  | cons p rest ih =>
      intro hk e he
      rw [registerStatics] at he
      split at he
      · exact ⟨p.name, (Option.some.inj he).symm⟩
      · obtain ⟨cap, hcap⟩ := Option.isSome_iff_exists.mp
          (hk p (List.mem_cons_self p rest)).1
        obtain ⟨rz, hrz⟩ := Option.isSome_iff_exists.mp
          (hk p (List.mem_cons_self p rest)).2
        rw [hcap, hrz] at he
        exact ih (fun q hq => hk q (List.mem_cons_of_mem _ hq)) he

/-- With every name in both catalogs, the dynamic registration loop
fails exactly when the rank gate trips for some property. -/
theorem registerDynamics_error_none {r : Nat} :
    ∀ {l : List (DumpProp × PeriodVal)},
    (∀ kv ∈ l, (known_properties kv.1.name).isSome = true ∧
      (known_resolutions kv.1.name).isSome = true) →
    ((registerDynamics r l).2 = none ↔
      ¬(1 < r ∧ ∃ kv ∈ l, kv.1.name ∈ bad_mpi_properties)) := by
  intro l
  induction l with
  | nil => intro _; simp [registerDynamics]
  | cons kv rest ih =>
      intro hk
      obtain ⟨p, pv⟩ := kv
      rw [registerDynamics]
      split
      · rename_i hcond
        simp only [reduceCtorEq, false_iff, not_not]
        exact ⟨hcond.1, (p, pv), List.mem_cons_self _ rest, hcond.2⟩
      · rename_i hcond
        obtain ⟨cap, hcap⟩ := Option.isSome_iff_exists.mp
          (hk (p, pv) (List.mem_cons_self _ rest)).1
        obtain ⟨rz, hrz⟩ := Option.isSome_iff_exists.mp
          (hk (p, pv) (List.mem_cons_self _ rest)).2
        rw [hcap, hrz]
        have ihr := ih fun q hq => hk q (List.mem_cons_of_mem _ hq)
        simp only [ihr]
        constructor
        · intro hno ⟨hr, q, hq, hbad⟩
          rcases List.mem_cons.mp hq with rfl | hq
          · exact hcond ⟨hr, hbad⟩
          · exact hno ⟨hr, q, hq, hbad⟩
        · intro hno ⟨hr, q, hq, hbad⟩
          exact hno ⟨hr, q, List.mem_cons_of_mem _ hq, hbad⟩

/-- With every name in both catalogs, any error of the dynamic
registration loop is a rank-unsafety error. -/
theorem registerDynamics_error_rank {r : Nat} :
    ∀ {l : List (DumpProp × PeriodVal)},
    (∀ kv ∈ l, (known_properties kv.1.name).isSome = true ∧
      (known_resolutions kv.1.name).isSome = true) →
    ∀ {e : DumpError}, (registerDynamics r l).2 = some e →
    ∃ n, e = .rankUnsafe n := by
  intro l
  induction l with
  | nil => intro _ e he; simp [registerDynamics] at he
  | cons kv rest ih =>
      intro hk e he
      obtain ⟨p, pv⟩ := kv
      rw [registerDynamics] at he
      split at he
      · exact ⟨p.name, (Option.some.inj he).symm⟩
      · obtain ⟨cap, hcap⟩ := Option.isSome_iff_exists.mp
          (hk (p, pv) (List.mem_cons_self _ rest)).1
        obtain ⟨rz, hrz⟩ := Option.isSome_iff_exists.mp
          (hk (p, pv) (List.mem_cons_self _ rest)).2
        rw [hcap, hrz] at he
        exact ih (fun q hq => hk q (List.mem_cons_of_mem _ hq)) he

/-- Keys after a dict assignment come from the old keys or are the
assigned key. -/
theorem dictSet_keys {d : List (DumpProp × PeriodVal)} {k x : DumpProp}
    {v : PeriodVal} (hx : x ∈ (dictSet d k v).map Prod.fst) :
    x ∈ d.map Prod.fst ∨ x = k := by
  rw [dictSet] at hx
  split at hx
  · rw [List.map_map] at hx
    obtain ⟨kv, hkv, heq⟩ := List.mem_map.mp hx
    by_cases hk : kv.1 = k
    · right
      simp only [Function.comp, if_pos hk] at heq
      exact heq ▸ rfl
    · left
      simp only [Function.comp, if_neg hk] at heq
      exact heq ▸ List.mem_map_of_mem _ hkv
  · rw [List.map_append] at hx
    rcases List.mem_append.mp hx with hx | hx
    · exact Or.inl hx
    · right
      simpa using hx

/-- Keys after the inner dynamic-assignment loop come from the old keys
or from the assigned property list. -/
theorem dynAssign_keys {pv : PeriodVal} {x : DumpProp} :
    ∀ {ps : List DumpProp} {d : List (DumpProp × PeriodVal)},
    x ∈ (dynAssign pv d ps).map Prod.fst → x ∈ d.map Prod.fst ∨ x ∈ ps := by
  intro ps
  induction ps with
  | nil => intro d hx; exact Or.inl hx
  | cons p rest ih =>
      intro d hx
      rw [dynAssign] at hx
      rcases ih hx with hx | hx
      · rcases dictSet_keys hx with hx | rfl
        · exact Or.inl hx
        · exact Or.inr (List.mem_cons_self _ _)
      · exact Or.inr (List.mem_cons_of_mem _ hx)

/-- Keys of the built dynamic mapping come from the accumulator or from
the expansion of some dynamic key. -/
theorem buildDynAux_keys {x : DumpProp} :
    ∀ {rest : List (PropSpec × PeriodVal)} {d : List (DumpProp × PeriodVal)},
    x ∈ (buildDynAux d rest).map Prod.fst →
    x ∈ d.map Prod.fst ∨ ∃ entry ∈ rest, x ∈ expandNames [entry.1] := by
  intro rest
  induction rest with
  | nil => intro d hx; exact Or.inl hx
  | cons kp rest ih =>
      intro d hx
      obtain ⟨k, pv⟩ := kp
      rw [buildDynAux] at hx
      rcases ih hx with hx | ⟨entry, hentry, hmem⟩
      · rcases dynAssign_keys hx with hx | hx
        · exact Or.inl hx
        · exact Or.inr ⟨(k, pv), List.mem_cons_self _ _, hx⟩
      · exact Or.inr ⟨entry, List.mem_cons_of_mem _ hentry, hmem⟩

/-- Every key of `self._dynamic` lies in the expansion of one of the
supplied dynamic keys. -/
theorem buildDyn_keys {x : DumpProp} {dynamic : List (PropSpec × PeriodVal)}
    (hx : x ∈ (buildDyn dynamic).map Prod.fst) :
    ∃ entry ∈ dynamic, x ∈ expandNames [entry.1] := by
  rcases buildDynAux_keys hx with hx | hx
  · simp at hx
  · exact hx

/-- Expansion inherits precision and compression: every produced
property carries the (normalized) precision and compression of some
input element. -/
theorem expandNames_inherits :
    ∀ {l : List PropSpec} {q : DumpProp}, q ∈ expandNames l →
    ∃ v ∈ l, q.highPrecision = (getStatic v).highPrecision ∧
      q.compression = (getStatic v).compression := by
  intro l
  induction l using expandNames.induct with
  | case1 =>
      intro q hq
      rw [expandNames] at hq
      exact absurd hq (List.not_mem_nil q)
  | case2 v rest names hsub ih1 ih2 =>
      intro q hq
      rw [expandNames_cons_some hsub] at hq
      rcases List.mem_append.mp hq with hq | hq
      · obtain ⟨c, hc, hcp⟩ := ih1 hq
        obtain ⟨n, _, rfl⟩ := List.mem_map.mp hc
        exact ⟨v, List.mem_cons_self v rest, hcp.1, hcp.2⟩
      · obtain ⟨w, hw, hwp⟩ := ih2 hq
        exact ⟨w, List.mem_cons_of_mem _ hw, hwp⟩
  | case3 v rest hsub ih =>
      intro q hq
      rw [expandNames_cons_none hsub] at hq
      rcases List.mem_cons.mp hq with rfl | hq
      · exact ⟨v, List.mem_cons_self v rest, rfl, rfl⟩
      · obtain ⟨w, hw, hwp⟩ := ih hq
        exact ⟨w, List.mem_cons_of_mem _ hw, hwp⟩

/-- When validation and the mode lookup pass, the constructor's error
is the static registration error, else the dynamic registration error. -/
theorem getarInit_error_eq {filename mode : String} {static : List PropSpec}
    {dynamic : List (PropSpec × PeriodVal)} {num_ranks : Nat}
    {fileExists : Bool} {startStep : Int} {m : GetarDumpMode}
    (hsc : staticCheck (expandNames static) (lastDynProp dynamic) = none)
    (hdc : dynCheck (buildDyn dynamic) = none)
    (hm : dump_modes mode = some m) :
    (getarInit filename mode static dynamic num_ranks fileExists
        startStep).error =
      match (registerStatics num_ranks (pySet (expandNames static))).2 with
      | some e => some e
      | none => (registerDynamics num_ranks (buildDyn dynamic)).2 := by
  simp only [getarInit]
  rw [hsc, hdc, hm]
  rcases hrs : registerStatics num_ranks (pySet (expandNames static))
    with ⟨evs, err⟩
  cases err <;> rfl

/-- Every event issued by the constructor is the archive-open call or
comes from one of the two registration loops. -/
theorem getarInit_events_mem {filename mode : String} {static : List PropSpec}
    {dynamic : List (PropSpec × PeriodVal)} {num_ranks : Nat}
    {fileExists : Bool} {startStep : Int} {e : Event}
    (he : e ∈ (getarInit filename mode static dynamic num_ranks fileExists
      startStep).events) :
    (∃ md, e = Event.openArchive filename md startStep) ∨
    e ∈ (registerStatics num_ranks (pySet (expandNames static))).1 ∨
    e ∈ (registerDynamics num_ranks (buildDyn dynamic)).1 := by
  simp only [getarInit] at he
  split at he
  · exact absurd he (List.not_mem_nil e)
  · split at he
    · exact absurd he (List.not_mem_nil e)
    · split at he
      · exact absurd he (List.not_mem_nil e)
      · rename_i m hm
        split at he
        · rename_i evs err heq
          rcases List.mem_cons.mp he with rfl | he
          · exact Or.inl ⟨_, rfl⟩
          · refine Or.inr (Or.inl ?_)
            rw [heq]
            exact he
        · rename_i evs heq
          rcases List.mem_cons.mp he with rfl | he
          · exact Or.inl ⟨_, rfl⟩
          · rcases List.mem_append.mp he with he | he
            · refine Or.inr (Or.inl ?_)
              rw [heq]
              exact he
            · exact Or.inr (Or.inr he)

/-- Discrete-behavior (periodic) registration events. -/
def isDiscreteReg : Event → Bool
  | .setPeriod _ _ .discrete _ _ _ => true
  | _ => false

/-- Any archive-open event the constructor issues carries the effective
mode: the looked-up mode, downgraded to overwrite when append was
requested and no file exists. -/
theorem getarInit_open_mode {filename mode : String} {static : List PropSpec}
    {dynamic : List (PropSpec × PeriodVal)} {num_ranks : Nat}
    {fileExists : Bool} {startStep : Int} {md : GetarDumpMode}
    (hmem : Event.openArchive filename md startStep ∈
      (getarInit filename mode static dynamic num_ranks fileExists
        startStep).events) :
    ∃ m, dump_modes mode = some m ∧
      md = (if m = .append ∧ fileExists = false then .overwrite else m) := by
  simp only [getarInit] at hmem
  split at hmem
  · exact absurd hmem (List.not_mem_nil _)
  · split at hmem
    · exact absurd hmem (List.not_mem_nil _)
    · split at hmem
      · exact absurd hmem (List.not_mem_nil _)
      · rename_i m hm
        refine ⟨m, hm, ?_⟩
        split at hmem
        · rename_i heq
          rcases List.mem_cons.mp hmem with heq2 | hmem
          · rw [Event.openArchive.injEq] at heq2
            exact heq2.2.1
          · have hmem2 : Event.openArchive filename md startStep ∈
                (registerStatics num_ranks (pySet (expandNames static))).1 := by
              rw [heq]
              exact hmem
            obtain ⟨p, _, cap, rz, hshape⟩ := registerStatics_mem_shape hmem2
            exact Event.noConfusion hshape
        · rename_i heq
          rcases List.mem_cons.mp hmem with heq2 | hmem
          · rw [Event.openArchive.injEq] at heq2
            exact heq2.2.1
          · rcases List.mem_append.mp hmem with hmem | hmem
            · have hmem2 : Event.openArchive filename md startStep ∈
                  (registerStatics num_ranks (pySet (expandNames static))).1 := by
                rw [heq]
                exact hmem
              obtain ⟨p, _, cap, rz, hshape⟩ := registerStatics_mem_shape hmem2
              exact Event.noConfusion hshape
            · obtain ⟨kv, _, cap, rz, per, hshape⟩ :=
                registerDynamics_mem_shape hmem
              exact Event.noConfusion hshape


/-- Claim C1: the spec says every property request whose expanded name
is absent from `known_properties` makes construction fail with an
unknown-property error, for static names just as for dynamic ones. The
code's static validation loop (dump.py line 278) tests the stale
variable `prop` of the earlier dynamic-expansion loop instead of the
loop's own `val`, so an unknown static name passes validation whenever
the last dynamic property is known; the archive is then opened and
registration fails with a `KeyError` from `known_properties[prop.name]`
instead of the intended unknown-static-property `RuntimeError`. -/
theorem unknown_static_property_not_validated :
    getarInit "dump.zip" "w" [PropSpec.str "bogus"]
        [(PropSpec.str "position", PeriodVal.one 10)] 1 false 0 =
      ⟨[Event.openArchive "dump.zip" GetarDumpMode.overwrite 0],
        some (DumpError.keyError "bogus")⟩ ∧
    known_properties "bogus" = none := by
  rw [getarInit_eq_F]
  decide

/-- Claim C3 (counterexample): supplying periods `[10, 10, 20]` for one
dynamic property issues three discrete `setPeriod` registrations, one
per supplied value with the duplicate kept, not the two the claim's set
semantics demands. -/
theorem duplicate_periods_three_registrations :
    getarInit "dump.zip" "w" []
        [(PropSpec.str "position", PeriodVal.many [10, 10, 20])] 1 false 0 =
      ⟨[Event.openArchive "dump.zip" GetarDumpMode.overwrite 0,
        Event.setPeriod .position .individual .discrete false .fastCompress 10,
        Event.setPeriod .position .individual .discrete false .fastCompress 10,
        Event.setPeriod .position .individual .discrete false .fastCompress 20],
        none⟩ ∧
    ((getarInit "dump.zip" "w" []
        [(PropSpec.str "position", PeriodVal.many [10, 10, 20])]
        1 false 0).events.filter isDiscreteReg).length = 3 := by
  rw [getarInit_eq_F]
  decide

/-- Claim C3 (amended): the dynamic registration loop issues exactly one
discrete `setPeriod` call per element of the supplied period sequence,
in order and with duplicates kept (multiset, not set, semantics); and
when two dynamic requests resolve to the same property (here `position`
directly and through `viz_dynamic`), the later request's period value
replaces the earlier one, whose period is never issued at all. -/
theorem dynamic_periods_multiset_registration (l : List Int) (a b : Int) :
    ((getarInit "dump.zip" "w" []
        [(PropSpec.str "position", PeriodVal.many l)] 1 false 0).events =
      Event.openArchive "dump.zip" GetarDumpMode.overwrite 0 ::
        l.map (fun per => Event.setPeriod GetarProperty.position
          GetarResolution.individual GetarBehavior.discrete false
          GetarCompression.fastCompress per) ∧
    (getarInit "dump.zip" "w" []
        [(PropSpec.str "position", PeriodVal.many l)] 1 false 0).error
      = none) ∧
    getarInit "dump.zip" "w" []
        [(PropSpec.str "position", PeriodVal.one a),
         (PropSpec.str "viz_dynamic", PeriodVal.one b)] 1 false 0 =
      ⟨[Event.openArchive "dump.zip" GetarDumpMode.overwrite 0,
        Event.setPeriod GetarProperty.position GetarResolution.individual
          GetarBehavior.discrete false GetarCompression.fastCompress b,
        Event.setPeriod GetarProperty.box GetarResolution.uniform
          GetarBehavior.discrete false GetarCompression.fastCompress b],
        none⟩ := by
  rw [getarInit_eq_F]
  refine ⟨⟨?_, rfl⟩, ?_⟩
  · show Event.openArchive "dump.zip" GetarDumpMode.overwrite 0 ::
        ([] ++ (l.map (fun per => Event.setPeriod GetarProperty.position
          GetarResolution.individual GetarBehavior.discrete false
          GetarCompression.fastCompress per) ++ [])) = _
    rw [List.nil_append, List.append_nil]
  · rfl

/-- Claim C4 (counterexample): a dynamic request with period 0 raises no
error at all; construction succeeds and the zero period is forwarded to
the writer. -/
theorem zero_period_no_error :
    getarInit "dump.zip" "w" []
        [(PropSpec.str "position", PeriodVal.one 0)] 1 false 0 =
      ⟨[Event.openArchive "dump.zip" GetarDumpMode.overwrite 0,
        Event.setPeriod .position .individual .discrete false .fastCompress 0],
        none⟩ := by
  rw [getarInit_eq_F]
  decide

/-- Claim C4 (amended): the constructor performs no period validation:
every integer period, zero and negative values included, is accepted
and forwarded unchanged in the discrete `setPeriod` call. -/
theorem nonpositive_period_accepted (n : Int) :
    getarInit "dump.zip" "w" []
        [(PropSpec.str "position", PeriodVal.one n)] 1 false 0 =
      ⟨[Event.openArchive "dump.zip" GetarDumpMode.overwrite 0,
        Event.setPeriod .position .individual .discrete false .fastCompress n],
        none⟩ := by
  rw [getarInit_eq_F]
  rfl

/-- Claim C5 (counterexample): a construction that opens the archive and
then fails on a rank-unsafe dynamic property propagates the error with
the open call issued and no close call anywhere in the trace. -/
theorem failed_construction_leaves_handle_open :
    (getarInit "dump.zip" "w" []
        [(PropSpec.str "potential_energy", PeriodVal.one 10)] 4 false 0).error =
      some (DumpError.rankUnsafe "potential_energy") ∧
    Event.openArchive "dump.zip" GetarDumpMode.overwrite 0 ∈
      (getarInit "dump.zip" "w" []
        [(PropSpec.str "potential_energy", PeriodVal.one 10)] 4 false 0).events ∧
    Event.close ∉
      (getarInit "dump.zip" "w" []
        [(PropSpec.str "potential_energy", PeriodVal.one 10)] 4 false 0).events := by
  rw [getarInit_eq_F]
  decide

/-- Claim C5 (amended): the constructor never issues a close call, on
any input and in particular on every failing path: a failure after the
archive is opened propagates with the handle left open (dump.py's
`__init__` has no cleanup handler; only an explicit later `close()`
call, modelled by `getarCloseEvents`, closes the writer). -/
theorem constructor_never_closes_handle (filename mode : String)
    (static : List PropSpec) (dynamic : List (PropSpec × PeriodVal))
    (num_ranks : Nat) (fileExists : Bool) (startStep : Int) :
    Event.close ∉ (getarInit filename mode static dynamic num_ranks
      fileExists startStep).events := by
  intro hmem
  rcases getarInit_events_mem hmem with ⟨md, h⟩ | h | h
  · exact Event.noConfusion h
  · obtain ⟨p, _, cap, rz, h⟩ := registerStatics_mem_shape h
    exact Event.noConfusion h
  · obtain ⟨kv, _, cap, rz, per, h⟩ := registerDynamics_mem_shape h
    exact Event.noConfusion h

/-- Claim C6: constructing with mode `"a"` (append) when no file exists
at the target path behaves identically to constructing with mode `"w"`:
the whole call trace and outcome agree, and any archive-open call of the
append-mode run carries the `Overwrite` mode token. -/
theorem append_no_file_eq_overwrite (filename : String)
    (static : List PropSpec) (dynamic : List (PropSpec × PeriodVal))
    (num_ranks : Nat) (startStep : Int) :
    getarInit filename "a" static dynamic num_ranks false startStep =
      getarInit filename "w" static dynamic num_ranks false startStep ∧
    ∀ md, Event.openArchive filename md startStep ∈
        (getarInit filename "a" static dynamic num_ranks false
          startStep).events →
      md = GetarDumpMode.overwrite := by
  constructor
  · simp only [getarInit]
    cases hsc : staticCheck (expandNames static) (lastDynProp dynamic) with
    | some e => rfl
    | none =>
        cases hdc : dynCheck (buildDyn dynamic) with
        | some e => rfl
        | none => rfl
  · intro md hmem
    obtain ⟨m, hm, hmd⟩ := getarInit_open_mode hmem
    have hm2 : some GetarDumpMode.append = some m := hm
    injection hm2 with hm2
    rw [← hm2] at hmd
    exact hmd

/-- Claim C7 (counterexample): with the invalid mode token `"x"` and a
nonempty static list but no dynamic entries, construction fails with the
stale-variable `NameError` of the static validation loop (dump.py line
278), not with the unknown-mode error the claim states; no registration
happens either way. -/
theorem invalid_mode_masked_by_name_error :
    getarInit "dump.zip" "x" [PropSpec.str "position"] [] 1 false 0 =
      ⟨[], some DumpError.nameError⟩ ∧
    dump_modes "x" = none := by
  rw [getarInit_eq_F]
  decide

/-- Claim C7 (amended): with a mode token outside the mode table no call
is ever issued to the external writer (the writer is not even opened),
and construction fails with the unknown-mode error provided the earlier
validation loops do not fail first (static list empty, dynamic names
known); with a nonempty static list and empty dynamic mapping the
stale-variable `NameError` masks the unknown-mode error. -/
theorem invalid_mode_no_registration (filename mode : String)
    (static : List PropSpec) (dynamic : List (PropSpec × PeriodVal))
    (num_ranks : Nat) (fileExists : Bool) (startStep : Int)
    (h : dump_modes mode = none) :
    (getarInit filename mode static dynamic num_ranks fileExists
      startStep).events = [] ∧
    (static = [] → dynCheck (buildDyn dynamic) = none →
      (getarInit filename mode static dynamic num_ranks fileExists
        startStep).error = some (DumpError.unknownMode mode)) := by
  constructor
  · simp only [getarInit]
    cases hsc : staticCheck (expandNames static) (lastDynProp dynamic) with
    | some e => rfl
    | none =>
        cases hdc : dynCheck (buildDyn dynamic) with
        | some e => rfl
        | none => rw [h]
  · intro hstat hdc
    subst hstat
    have hsc : staticCheck (expandNames ([] : List PropSpec))
        (lastDynProp dynamic) = none := by
      rw [expandNames.eq_1]
      rfl
    simp only [getarInit]
    rw [hsc, hdc, h]

/-- Claim C7 (witness): the amended claim at mode `"x"` with an empty
static list and the dynamic request `position`. -/
theorem invalid_mode_no_registration_witness :
    dump_modes "x" = none ∧
    ((getarInit "dump.zip" "x" []
        [(PropSpec.str "position", PeriodVal.one 10)] 1 false 0).events = [] ∧
     (([] : List PropSpec) = [] →
      dynCheck (buildDyn [(PropSpec.str "position", PeriodVal.one 10)]) = none →
      (getarInit "dump.zip" "x" []
        [(PropSpec.str "position", PeriodVal.one 10)] 1 false 0).error =
        some (DumpError.unknownMode "x"))) := by
  have h : dump_modes "x" = none := rfl
  exact ⟨h, invalid_mode_no_registration "dump.zip" "x" []
    [(PropSpec.str "position", PeriodVal.one 10)] 1 false 0 h⟩

/-- Claim C8: name expansion is idempotent (and total by construction):
re-expanding an already expanded request sequence returns it unchanged,
because expansion recurses until no produced name is a substitution key
and non-key names pass through. -/
theorem expandNames_idempotent (R : List PropSpec) :
    expandNames ((expandNames R).map PropSpec.prop) = expandNames R :=
  expandNames_fixed fun p hp => expandNames_no_subst hp

/-- Claim C2 (counterexample): requesting the rank-unsafe property
`potential_energy` as a static property with rank count 4 and an empty
dynamic mapping must, by the claim, raise the rank-unsafety error; the
code instead raises the stale-variable `NameError` of the static
validation loop before the rank gate is ever reached. -/
theorem rank_unsafe_gate_counterexample :
    getarInit "dump.zip" "w" [PropSpec.str "potential_energy"] [] 4 false 0 =
      ⟨[], some DumpError.nameError⟩ ∧
    expandNames [PropSpec.str "potential_energy"] =
      [⟨"potential_energy", false, GetarCompression.fastCompress⟩] ∧
    "potential_energy" ∈ bad_mpi_properties := by
  rw [getarInit_eq_F, expandNames_eq_F]
  decide

/-- Claim C2 (amended): when the mode token is valid, both validation
loops pass, and every resolved static and dynamic property name is in
both catalogs, a rank-unsafety error is raised iff the participant-rank
count exceeds one and some resolved property is in `bad_mpi_properties`,
and construction succeeds iff that condition fails; the rank-1 run of
the same request therefore succeeds. (The validation hypotheses exclude
the defective static loop: it passes exactly when the static list is
empty or the stale dynamic loop variable holds a known property.) -/
theorem rank_unsafe_gate_iff (filename mode : String) (static : List PropSpec)
    (dynamic : List (PropSpec × PeriodVal)) (num_ranks : Nat)
    (fileExists : Bool) (startStep : Int) (m : GetarDumpMode)
    (hsc : staticCheck (expandNames static) (lastDynProp dynamic) = none)
    (hdc : dynCheck (buildDyn dynamic) = none)
    (hm : dump_modes mode = some m)
    (hks : forall p, p ∈ expandNames static →
      (known_properties p.name).isSome = true ∧
      (known_resolutions p.name).isSome = true)
    (hkd : forall kv, kv ∈ buildDyn dynamic →
      (known_properties kv.1.name).isSome = true ∧
      (known_resolutions kv.1.name).isSome = true) :
    ((∃ n, (getarInit filename mode static dynamic num_ranks fileExists
        startStep).error = some (DumpError.rankUnsafe n)) ↔
      (1 < num_ranks ∧
        ((∃ p ∈ expandNames static, p.name ∈ bad_mpi_properties) ∨
         (∃ kv ∈ buildDyn dynamic, kv.1.name ∈ bad_mpi_properties)))) ∧
    ((getarInit filename mode static dynamic num_ranks fileExists
        startStep).error = none ↔
      ¬(1 < num_ranks ∧
        ((∃ p ∈ expandNames static, p.name ∈ bad_mpi_properties) ∨
         (∃ kv ∈ buildDyn dynamic, kv.1.name ∈ bad_mpi_properties)))) := by
  have hksP : ∀ p ∈ pySet (expandNames static),
      (known_properties p.name).isSome = true ∧
      (known_resolutions p.name).isSome = true :=
    fun p hp => hks p (pySet_mem.mp hp)
  have hSB : (∃ p ∈ pySet (expandNames static), p.name ∈ bad_mpi_properties) ↔
      (∃ p ∈ expandNames static, p.name ∈ bad_mpi_properties) := by
    constructor
    · rintro ⟨p, hp, hb⟩
      exact ⟨p, pySet_mem.mp hp, hb⟩
    · rintro ⟨p, hp, hb⟩
      exact ⟨p, pySet_mem.mpr hp, hb⟩
  have hsn := @registerStatics_error_none num_ranks
    (pySet (expandNames static)) hksP
  have hdn := @registerDynamics_error_none num_ranks (buildDyn dynamic) hkd
  rcases hrs : (registerStatics num_ranks (pySet (expandNames static))).2
    with _ | e
  · have herr : (getarInit filename mode static dynamic num_ranks fileExists
        startStep).error = (registerDynamics num_ranks (buildDyn dynamic)).2 := by
      rw [@getarInit_error_eq filename mode static dynamic num_ranks fileExists
        startStep m hsc hdc hm, hrs]
    have hnos : ¬(1 < num_ranks ∧
        ∃ p ∈ expandNames static, p.name ∈ bad_mpi_properties) := by
      rintro ⟨h1, hex⟩
      exact (hsn.mp hrs) ⟨h1, hSB.mpr hex⟩
    rcases hrd : (registerDynamics num_ranks (buildDyn dynamic)).2 with _ | e
    · have hnod : ¬(1 < num_ranks ∧
          ∃ kv ∈ buildDyn dynamic, kv.1.name ∈ bad_mpi_properties) :=
        hdn.mp hrd
      rw [herr, hrd]
      constructor
      · constructor
        · rintro ⟨n, hn⟩
          exact Option.noConfusion hn
        · rintro ⟨h1, hex | hex⟩
          · exact absurd ⟨h1, hex⟩ hnos
          · exact absurd ⟨h1, hex⟩ hnod
      · constructor
        · rintro - ⟨h1, hex | hex⟩
          · exact absurd ⟨h1, hex⟩ hnos
          · exact absurd ⟨h1, hex⟩ hnod
        · intro _
          rfl
    · obtain ⟨n, rfl⟩ := @registerDynamics_error_rank num_ranks
        (buildDyn dynamic) hkd e hrd
      have hdb : 1 < num_ranks ∧
          ∃ kv ∈ buildDyn dynamic, kv.1.name ∈ bad_mpi_properties := by
        by_contra hcon
        have h0 := hdn.mpr hcon
        rw [hrd] at h0
        exact Option.noConfusion h0
      rw [herr, hrd]
      constructor
      · constructor
        · intro _
          exact ⟨hdb.1, Or.inr hdb.2⟩
        · intro _
          exact ⟨n, rfl⟩
      · constructor
        · intro h0
          exact Option.noConfusion h0
        · intro hno
          exact absurd ⟨hdb.1, Or.inr hdb.2⟩ hno
  · obtain ⟨n, rfl⟩ := @registerStatics_error_rank num_ranks
      (pySet (expandNames static)) hksP e hrs
    have herr : (getarInit filename mode static dynamic num_ranks fileExists
        startStep).error = some (DumpError.rankUnsafe n) := by
      rw [@getarInit_error_eq filename mode static dynamic num_ranks fileExists
        startStep m hsc hdc hm, hrs]
    have hsb : 1 < num_ranks ∧
        ∃ p ∈ expandNames static, p.name ∈ bad_mpi_properties := by
      by_contra hcon
      have h0 : (registerStatics num_ranks (pySet (expandNames static))).2
          = none := by
        apply hsn.mpr
        rintro ⟨h1, hex⟩
        exact hcon ⟨h1, hSB.mp hex⟩
      rw [hrs] at h0
      exact Option.noConfusion h0
    rw [herr]
    constructor
    · constructor
      · intro _
        exact ⟨hsb.1, Or.inl hsb.2⟩
      · intro _
        exact ⟨n, rfl⟩
    · constructor
      · intro h0
        exact Option.noConfusion h0
      · intro hno
        exact absurd ⟨hsb.1, Or.inl hsb.2⟩ hno

/-- Claim C2 (witness): the amended claim at the spec example, the
dynamic request `potential_energy` with rank count 4: the conclusion
instantiates to a raised rank-unsafety error. -/
theorem rank_unsafe_gate_iff_witness :
    (staticCheck (expandNames ([] : List PropSpec))
      (lastDynProp [(PropSpec.str "potential_energy", PeriodVal.one 10)]) =
        none) ∧
    (dynCheck (buildDyn
      [(PropSpec.str "potential_energy", PeriodVal.one 10)]) = none) ∧
    (dump_modes "w" = some GetarDumpMode.overwrite) ∧
    (((∃ n, (getarInit "dump.zip" "w" []
        [(PropSpec.str "potential_energy", PeriodVal.one 10)]
        4 false 0).error = some (DumpError.rankUnsafe n)) ↔
      (1 < 4 ∧
        ((∃ p ∈ expandNames ([] : List PropSpec),
            p.name ∈ bad_mpi_properties) ∨
         (∃ kv ∈ buildDyn
            [(PropSpec.str "potential_energy", PeriodVal.one 10)],
            kv.1.name ∈ bad_mpi_properties)))) ∧
    ((getarInit "dump.zip" "w" []
        [(PropSpec.str "potential_energy", PeriodVal.one 10)]
        4 false 0).error = none ↔
      ¬(1 < 4 ∧
        ((∃ p ∈ expandNames ([] : List PropSpec),
            p.name ∈ bad_mpi_properties) ∨
         (∃ kv ∈ buildDyn
            [(PropSpec.str "potential_energy", PeriodVal.one 10)],
            kv.1.name ∈ bad_mpi_properties))))) := by
  have h1 : staticCheck (expandNames ([] : List PropSpec))
      (lastDynProp [(PropSpec.str "potential_energy", PeriodVal.one 10)]) =
        none := by
    rw [expandNames.eq_1]
    rfl
  have h2 : dynCheck (buildDyn
      [(PropSpec.str "potential_energy", PeriodVal.one 10)]) = none := by
    rw [buildDyn_eq_F]
    decide
  have h3 : dump_modes "w" = some GetarDumpMode.overwrite := rfl
  have h4 : ∀ p ∈ expandNames ([] : List PropSpec),
      (known_properties p.name).isSome = true ∧
      (known_resolutions p.name).isSome = true := by
    rw [expandNames.eq_1]
    intro p hp
    exact absurd hp (List.not_mem_nil p)
  have h5 : ∀ kv ∈ buildDyn
      [(PropSpec.str "potential_energy", PeriodVal.one 10)],
      (known_properties kv.1.name).isSome = true ∧
      (known_resolutions kv.1.name).isSome = true := by
    rw [buildDyn_eq_F]
    decide
  exact ⟨h1, h2, h3, rank_unsafe_gate_iff "dump.zip" "w" []
    [(PropSpec.str "potential_energy", PeriodVal.one 10)] 4 false 0
    GetarDumpMode.overwrite h1 h2 h3 h4 h5⟩

/-- Claim C10: in `getar.simple`, the `high_precision` flag is applied
only to the dynamic list: when every static element is a plain string,
every constant-behavior registration is issued with `highPrecision =
false` and `FastCompress` (the `DumpProp` defaults), whatever the
`high_precision` argument, while every discrete-behavior registration
carries `highPrecision = high_precision`. -/
theorem simple_static_defaults (filename : String) (period : PeriodVal)
    (mode : String) (static : List PropSpec) (dynamic : List String)
    (high_precision : Bool) (num_ranks : Nat) (fileExists : Bool)
    (startStep : Int)
    (hstr : forall s, s ∈ static → ∃ n, s = PropSpec.str n) :
    ∀ e ∈ (simple filename period mode static dynamic high_precision
        num_ranks fileExists startStep).events,
      (∀ cap rz hpr cmp per,
        e = Event.setPeriod cap rz GetarBehavior.constant hpr cmp per →
        hpr = false ∧ cmp = GetarCompression.fastCompress) ∧
      (∀ cap rz hpr cmp per,
        e = Event.setPeriod cap rz GetarBehavior.discrete hpr cmp per →
        hpr = high_precision) := by
  intro e he
  have he2 : e ∈ (getarInit filename mode static
      (dynamic.map fun name =>
        (PropSpec.prop ⟨name, high_precision, .fastCompress⟩, period))
      num_ranks fileExists startStep).events := he
  rcases getarInit_events_mem he2 with ⟨md, rfl⟩ | hmem | hmem
  · constructor <;> (intro cap rz hpr cmp per h; exact Event.noConfusion h)
  · obtain ⟨p, hp, cap, rz, rfl⟩ := registerStatics_mem_shape hmem
    obtain ⟨v, hv, hhp, hcmp⟩ := expandNames_inherits (pySet_mem.mp hp)
    obtain ⟨n, rfl⟩ := hstr v hv
    constructor
    · intro cap2 rz2 hpr cmp per h
      rw [Event.setPeriod.injEq] at h
      refine ⟨h.2.2.2.1 ▸ ?_, h.2.2.2.2.1 ▸ ?_⟩
      · exact hhp
      · exact hcmp
    · intro cap2 rz2 hpr cmp per h
      rw [Event.setPeriod.injEq] at h
      exact absurd h.2.2.1 (by simp)
  · obtain ⟨kv, hkv, cap, rz, per, rfl⟩ := registerDynamics_mem_shape hmem
    obtain ⟨entry, hentry, hmem2⟩ :=
      buildDyn_keys (List.mem_map_of_mem Prod.fst hkv)
    obtain ⟨nm, hnm, rfl⟩ := List.mem_map.mp hentry
    obtain ⟨v, hv, hhp, hcmp⟩ := expandNames_inherits hmem2
    rcases List.mem_cons.mp hv with rfl | hv2
    · constructor
      · intro cap2 rz2 hpr cmp per2 h
        rw [Event.setPeriod.injEq] at h
        exact absurd h.2.2.1 (by simp)
      · intro cap2 rz2 hpr cmp per2 h
        rw [Event.setPeriod.injEq] at h
        exact h.2.2.2.1 ▸ hhp
    · exact absurd hv2 (List.not_mem_nil v)

/-- Claim C10 (witness): `getar.simple` with a string static list
(`viz_static`), dynamic `position`, and `high_precision = true`. -/
theorem simple_static_defaults_witness :
    (∀ s ∈ [PropSpec.str "viz_static"], ∃ n, s = PropSpec.str n) ∧
    (∀ e ∈ (simple "dump.sqlite" (PeriodVal.one 100) "w"
        [PropSpec.str "viz_static"] ["position"] true 1 false 0).events,
      (∀ cap rz hpr cmp per,
        e = Event.setPeriod cap rz GetarBehavior.constant hpr cmp per →
        hpr = false ∧ cmp = GetarCompression.fastCompress) ∧
      (∀ cap rz hpr cmp per,
        e = Event.setPeriod cap rz GetarBehavior.discrete hpr cmp per →
        hpr = true)) := by
  have h : ∀ s ∈ [PropSpec.str "viz_static"], ∃ n, s = PropSpec.str n := by
    intro s hs
    rcases List.mem_cons.mp hs with rfl | hs
    · exact ⟨"viz_static", rfl⟩
    · exact absurd hs (List.not_mem_nil s)
  exact ⟨h, simple_static_defaults "dump.sqlite" (PeriodVal.one 100) "w"
    [PropSpec.str "viz_static"] ["position"] true 1 false 0 h⟩

end HoomdDump
